import Mathlib

/-!
Verification of the downloader orchestration core of the
instatok-downloader-backend repository: platform strategies (URL
validation and content-id extraction), the Instagram retry/fallback
state machine, the strategy selector, and the proxy pool manager.

URLs and other Python strings are modelled as `List Char`; Python's
string primitives (`split`, `rstrip`, substring membership) are
embedded explicitly.  Fallible Python operations (`IndexError` on
out-of-range list access, raised exceptions) are modelled with
`Option`/`Except` or explicit error constructors.
-/

namespace InstaTok

/-! ### Python string primitives -/

/-- Python `s.split("?")[0]`: everything before the first `?`. -/
def stripQuery (cs : List Char) : List Char :=
  cs.takeWhile (fun c => c ≠ '?')

/-- Python `s.rstrip("/")`: drop all trailing slashes. -/
def rstripSlash (cs : List Char) : List Char :=
  (cs.reverse.dropWhile (fun c => c = '/')).reverse

/-- Python `s.lower()` (ASCII case folding, sufficient for URLs). -/
def pyLower (cs : List Char) : List Char :=
  cs.map Char.toLower

/-- Python `sub in s` substring test: `sub` occurs contiguously in `cs`. -/
def pyContains (cs sub : List Char) : Bool :=
  match cs with
  | [] => sub.isEmpty
  | _ :: rest => sub.isPrefixOf cs || pyContains rest sub

/-- Character class `[A-Za-z0-9_-]` of the Instagram shortcode regex. -/
def isIdChar (c : Char) : Bool :=
  c.isAlpha || c.isDigit || c = '_' || c = '-'

/-! ### Regex search embeddings

`re.search` scans left to right and returns the leftmost match; the
capture groups `([A-Za-z0-9_-]+)` and `(\d+)` are greedy, so they take
the maximal run of matching characters. -/

/-- Try to match `seg` followed by a nonempty run of characters
satisfying `cls` at the head of `cs`; return the captured run. -/
def matchSegAt (cls : Char → Bool) (seg cs : List Char) : Option (List Char) :=
  if seg.isPrefixOf cs then
    let run := (cs.drop seg.length).takeWhile cls
    if run = [] then none else some run
  else none

/-- Leftmost match of `/(?:reel|p|tv)/([A-Za-z0-9_-]+)`
(`re.search` in `InstagramDownloader.extract_video_id`). -/
def igScan : List Char → Option (List Char)
  | [] => none
  | c :: cs =>
    match matchSegAt isIdChar ("/reel/".toList) (c :: cs) with
    | some g => some g
    | none =>
      match matchSegAt isIdChar ("/p/".toList) (c :: cs) with
      | some g => some g
      | none =>
        match matchSegAt isIdChar ("/tv/".toList) (c :: cs) with
        | some g => some g
        | none => igScan cs

/-- Leftmost match of `/video/(\d+)`
(`re.search` in `TikTokDownloader.extract_video_id`). -/
def ttScan : List Char → Option (List Char)
  | [] => none
  | c :: cs =>
    match matchSegAt Char.isDigit ("/video/".toList) (c :: cs) with
    | some g => some g
    | none => ttScan cs

/-! ### Content-id extraction -/

/-- `InstagramDownloader.extract_video_id`: strip the query string and
trailing slashes, search for the shortcode pattern, and otherwise fall
back to the last path segment (or the second-to-last one when the last
is empty — `url_parts[-2]`, whose `IndexError` on a too-short list is
modelled by `none`). -/
def ig_extract_video_id (url : List Char) : Option (List Char) :=
  let u := rstripSlash (stripQuery url)
  match igScan u with
  | some g => some g
  | none =>
    let parts := u.splitOn '/'
    let last := parts.getLastD []
    if last = [] then parts.reverse[1]? else some last

/-- `InstagramAlternativeDownloader.extract_video_id`: same
query/slash stripping, same pattern, same last-segment fallback. -/
def igAlt_extract_video_id (url : List Char) : Option (List Char) :=
  let u := rstripSlash (stripQuery url)
  match igScan u with
  | some g => some g
  | none =>
    let parts := u.splitOn '/'
    let last := parts.getLastD []
    if last = [] then parts.reverse[1]? else some last

/-- `TikTokDownloader.extract_video_id`: search the raw URL for
`/video/(\d+)`; otherwise `url.split("/")[-1].split("?")[0]`. -/
def tt_extract_video_id (url : List Char) : List Char :=
  match ttScan url with
  | some g => g
  | none => ((url.splitOn '/').getLastD []).takeWhile (fun c => c ≠ '?')

/-! ### URL validation -/

/-- `InstagramDownloader.validate_url` (and identically the alternative
variant): `"instagram.com" in url.lower()`. -/
def ig_validate_url (url : List Char) : Bool :=
  pyContains (pyLower url) ("instagram.com".toList)

/-- `TikTokDownloader.validate_url`:
`any(domain in url.lower() for domain in ["tiktok.com", "vm.tiktok.com"])`. -/
def tt_validate_url (url : List Char) : Bool :=
  pyContains (pyLower url) ("tiktok.com".toList)
    || pyContains (pyLower url) ("vm.tiktok.com".toList)

/-! ### Instagram retry/fallback state machine

`InstagramDownloader.get_video_stream` runs a `for attempt in
range(self.max_retries)` loop (`self.max_retries = 3`).  Each loop body
performs one strategy attempt, whose outcome we model as
`Except IgErr α` (`α` is the payload type): `instaloader`'s
`ConnectionException` is one handler, every other exception (including
the `ValueError("This post is not a video")` raised inside the `try`
body) lands in the generic `except Exception` handler.  On the last
attempt the connection handler raises a blocking error, while the
generic handler performs a single call to the alternative downloader
(outcome modelled as `Except (List Char) α`).  Observable side effects
(attempt invocations, `time.sleep` backoffs, proxy-pool refreshes, the
alternative call) are recorded as an event trace. -/

/-- Exception classification of one attempt of the Instagram retry loop. -/
inductive IgErr : Type
  /-- `instaloader.exceptions.ConnectionException` -/
  | conn (msg : List Char)
  /-- any other exception (`except Exception`), e.g. not-a-video -/
  | other (msg : List Char)
deriving DecidableEq

/-- Observable events of one `get_video_stream` call. -/
inductive FetchEvent : Type
  /-- one invocation of the primary strategy attempt (0-based index) -/
  | invoke (attempt : Nat)
  /-- `time.sleep(seconds)` backoff -/
  | sleep (seconds : Nat)
  /-- `proxy_manager.fetch_proxies()` -/
  | refreshPool
  /-- the single call to `InstagramAlternativeDownloader.get_video_stream` -/
  | altInvoke
deriving DecidableEq

/-- Terminal result of `get_video_stream`. -/
inductive FetchResult (α : Type) : Type
  /-- a payload was returned (from the primary or the alternative) -/
  | ok (payload : α)
  /-- `ValueError("Instagram is blocking requests. ...")` -/
  | errBlocking
  /-- `ValueError("Failed to download Instagram video with all methods.
  Original error: ..., Alternative error: ...")` -/
  | errCombined (orig altMsg : List Char)
  /-- `ValueError("Failed to download Instagram video after all retries")`
  (line after the loop, reached only when the loop body never runs) -/
  | errLoopExit
deriving DecidableEq

/-- The retry loop from attempt number `attempt` with `rem` loop
iterations remaining (`attempt + rem = max_retries`, so the Python
guard `attempt < max_retries - 1` is `rem > 1` at the head of an
iteration, i.e. `rem > 0` after peeling the current one). -/
def igFetchGo {α : Type} (outcomes : Nat → Except IgErr α)
    (alt : Except (List Char) α) :
    Nat → Nat → FetchResult α × List FetchEvent
  | _, 0 => (.errLoopExit, [])
  | attempt, rem + 1 =>
    match outcomes attempt with
    | .ok p => (.ok p, [.invoke attempt])
    | .error (.conn _) =>
      if rem > 0 then
        let next := igFetchGo outcomes alt (attempt + 1) rem
        (next.1, .invoke attempt :: .sleep ((attempt + 1) * 5) ::
          .refreshPool :: next.2)
      else
        (.errBlocking, [.invoke attempt])
    | .error (.other m) =>
      if rem > 0 then
        let next := igFetchGo outcomes alt (attempt + 1) rem
        (next.1, .invoke attempt :: .sleep ((attempt + 1) * 3) :: next.2)
      else
        match alt with
        | .ok p => (.ok p, [.invoke attempt, .altInvoke])
        | .error am => (.errCombined m am, [.invoke attempt, .altInvoke])

/-- `InstagramDownloader.get_video_stream`, abstracted over the
per-attempt outcomes and the alternative downloader's outcome. -/
def ig_get_video_stream {α : Type} (maxRetries : Nat)
    (outcomes : Nat → Except IgErr α) (alt : Except (List Char) α) :
    FetchResult α × List FetchEvent :=
  igFetchGo outcomes alt 0 maxRetries

/-- The attempt outcomes of a run in which every attempt fails, with
the error of attempt `k` given by `errs k`. -/
def allFail {α : Type} (errs : Nat → IgErr) : Nat → Except IgErr α :=
  fun k => .error (errs k)

/-- Error schedule for a three-attempt run. -/
def errsOf3 (e0 e1 e2 : IgErr) : Nat → IgErr :=
  fun k => if k = 0 then e0 else if k = 1 then e1 else e2

/-- Number of primary-strategy invocations in an event trace. -/
def invokeCount (evs : List FetchEvent) : Nat :=
  evs.countP (fun e => match e with | .invoke _ => true | _ => false)

/-- Number of alternative-downloader invocations in an event trace. -/
def altCount (evs : List FetchEvent) : Nat :=
  evs.count .altInvoke

/-- The backoff sleeps of an event trace, in order. -/
def sleepList (evs : List FetchEvent) : List Nat :=
  evs.filterMap (fun e => match e with | .sleep n => some n | _ => none)

/-- The backoff the code sleeps after failed attempt `k` (0-based):
`(attempt + 1) * 5` for `ConnectionException`, `(attempt + 1) * 3`
for generic errors. -/
def backoff (k : Nat) : IgErr → Nat
  | .conn _ => (k + 1) * 5
  | .other _ => (k + 1) * 3

/-! ### Proxy pool (`ProxyManager`)

Proxies are the dicts `{"http": u, "https": u}` built by the fetch
helpers; equality of dicts is structural.  The pool state is the
`proxies` list together with the rotation cursor `current_index`. -/

/-- A proxy dict `{"http": ..., "https": ...}`. -/
structure ProxyEndpoint : Type where
  http : List Char
  https : List Char
deriving DecidableEq

/-- State of a `ProxyManager`: the proxy list and the rotation cursor. -/
structure PoolState : Type where
  proxies : List ProxyEndpoint
  currentIndex : Nat
deriving DecidableEq

/-- Result of one `get_proxy` call: a proxy, `None` for an empty pool,
or an uncaught `IndexError` (cursor out of range on a nonempty pool). -/
inductive NextResult : Type
  | proxy (p : ProxyEndpoint)
  | empty
  | indexError
deriving DecidableEq

/-- `ProxyManager.get_proxy`: return `None` on an empty pool, else read
`self.proxies[self.current_index]` (an `IndexError` if the cursor is out
of range, leaving the state unchanged) and advance the cursor modulo the
pool length. -/
def get_proxy (s : PoolState) : NextResult × PoolState :=
  match s.proxies[s.currentIndex]? with
  | some p =>
    (.proxy p, ⟨s.proxies, (s.currentIndex + 1) % s.proxies.length⟩)
  | none =>
    if s.proxies.isEmpty then (.empty, s) else (.indexError, s)

/-- `ProxyManager.remove_proxy`: `list.remove` drops the first
structurally equal entry and is a no-op when absent; the cursor is not
touched. -/
def remove_proxy (s : PoolState) (p : ProxyEndpoint) : PoolState :=
  ⟨s.proxies.erase p, s.currentIndex⟩

/-- The deduplication pass at the end of `ProxyManager.fetch_proxies`:
keep the first entry for each `proxy.get("http", "")` key, tracking
keys already seen. -/
def dedupByHttp (seen : List (List Char)) :
    List ProxyEndpoint → List ProxyEndpoint
  | [] => []
  | p :: ps =>
    if p.http ∈ seen then dedupByHttp seen ps
    else p :: dedupByHttp (p.http :: seen) ps

/-- `ProxyManager.fetch_proxies` at the list level: each source either
raises (`none`) — its failure is caught and logged — or contributes a
list of candidates which is appended to the current pool; the merged
list is then deduplicated by the `"http"` key and replaces the pool. -/
def fetch_proxies_pool (old : List ProxyEndpoint)
    (results : List (Option (List ProxyEndpoint))) : List ProxyEndpoint :=
  dedupByHttp [] (old ++ (results.filterMap id).flatten)

/-- `ProxyManager.fetch_proxies` as a state transition (the cursor is
not touched by the refresh). -/
def fetch_proxies (s : PoolState)
    (results : List (Option (List ProxyEndpoint))) : PoolState :=
  ⟨fetch_proxies_pool s.proxies results, s.currentIndex⟩

/-- Outputs and final state of `n` successive `get_proxy` calls. -/
def run_get_proxy (s : PoolState) : Nat → List NextResult × PoolState
  | 0 => ([], s)
  | n + 1 =>
    let first := get_proxy s
    let rest := run_get_proxy first.2 n
    (first.1 :: rest.1, rest.2)

/-- The cursor positions read by `n` successive `get_proxy` calls on an
untouched pool of length `K`, starting from cursor `i`. -/
def idxTrace (K : Nat) : Nat → Nat → List Nat
  | _, 0 => []
  | i, n + 1 => i :: idxTrace K ((i + 1) % K) n

/-- The `NextResult` produced by reading pool slot `t`. -/
def slotResult (pool : List ProxyEndpoint) (t : Nat) : NextResult :=
  match pool[t]? with
  | some p => .proxy p
  | none => .indexError

/-! ### Strategy selection (`DownloaderFactory.get_downloader`) -/

/-- The three concrete downloader classes. -/
inductive Downloader : Type
  | instagram
  | instagramAlt
  | tiktok
deriving DecidableEq

/-- `validate_url` of each downloader class (both Instagram variants
use the identical substring test). -/
def dlValidate : Downloader → List Char → Bool
  | .instagram, u => ig_validate_url u
  | .instagramAlt, u => ig_validate_url u
  | .tiktok, u => tt_validate_url u

/-- The `DownloaderFactory._downloaders` class registry. -/
def downloaderFor (p : String) : Option Downloader :=
  if p = "instagram" then some .instagram
  else if p = "instagram_alt" then some .instagramAlt
  else if p = "tiktok" then some .tiktok
  else none

/-- The loop body of `DownloaderFactory.get_downloader` over the
configured platform list: unimplemented platform names are skipped; for
`"instagram"` a URL containing `instagram.com` (the inline
`"instagram.com" in url_lower` test, which is the same expression as
`ig_validate_url`) selects the alternative implementation when the
`USE_ALT_INSTAGRAM` toggle is on, else the standard one; otherwise the
registry class is instantiated and its `validate_url` consulted. -/
def selectGo (useAlt : Bool) (url : List Char) :
    List String → Option Downloader
  | [] => none
  | p :: ps =>
    if ¬ (p = "instagram" ∨ p = "tiktok") then selectGo useAlt url ps
    else if p = "instagram" ∧ ig_validate_url url then
      some (if useAlt then .instagramAlt else .instagram)
    else
      match downloaderFor p with
      | some d => if dlValidate d url then some d else selectGo useAlt url ps
      | none => selectGo useAlt url ps

/-- `DownloaderFactory.get_downloader`: on fallthrough the raised
`ValueError` lists `Config.SUPPORTED_PLATFORMS`. -/
def get_downloader (supported : List String) (useAlt : Bool)
    (url : List Char) : Except (List String) Downloader :=
  match selectGo useAlt url supported with
  | some d => .ok d
  | none => .error supported

/-- The selection rule as the spec words it: walk the configured list
in order, skip unimplemented platforms, substitute the alternate
Instagram implementation when the toggle is active, and return the
first strategy whose `validate_url` accepts the URL. -/
def selectSpec (useAlt : Bool) (url : List Char) :
    List String → Option Downloader
  | [] => none
  | p :: ps =>
    let strat : Option Downloader :=
      if p = "instagram" then some (if useAlt then .instagramAlt else .instagram)
      else if p = "tiktok" then some .tiktok
      else none
    match strat with
    | some d => if dlValidate d url then some d else selectSpec useAlt url ps
    | none => selectSpec useAlt url ps

/-- The default `Config.SUPPORTED_PLATFORMS`. -/
def defaultPlatforms : List String := ["instagram", "tiktok"]

/-! ### Direct-URL resolution (`get_video_url`)

The HTTP exchange is abstracted into the shape of the parsed response;
the control flow around it is embedded exactly. -/

/-- One entry of the RapidAPI `medias` array: its `"type"` field and
its optional `"url"` field. -/
structure AltMedia : Type where
  mtype : List Char
  murl : Option (List Char)
deriving DecidableEq

/-- Outcome of the RapidAPI request in
`InstagramAlternativeDownloader.get_video_url`: the request (or JSON
parsing) raised, or a parsed body with the truthiness of its
`"success"` and `"data"` fields and the `medias` list. -/
inductive AltResp : Type
  | raises
  | ok (success : Bool) (hasData : Bool) (medias : List AltMedia)
deriving DecidableEq

/-- `InstagramAlternativeDownloader.get_video_url`: on a successful
body, return the `"url"` (default `""`) of the first media whose
`"type"` is `"video"`; in every other case — including a raised
exception, which the `except` clause swallows — return
`("", shortcode)`.  The function never raises. -/
def alt_get_video_url (resp : AltResp) (shortcode : List Char) :
    List Char × List Char :=
  match resp with
  | .raises => ([], shortcode)
  | .ok success hasData medias =>
    if success && hasData then
      match medias.find? (fun m => m.mtype = "video".toList) with
      | some m => (m.murl.getD [], shortcode)
      | none => ([], shortcode)
    else ([], shortcode)

/-- Outcome of the tikwm request in `TikTokDownloader.get_video_url`:
raised, or a parsed body with its `"code"` field (`none` when absent)
and `data["data"]["play"]` (`none` models the `KeyError`). -/
inductive TtResp : Type
  | raises
  | ok (code : Option Int) (play : Option (List Char))
deriving DecidableEq

/-- `TikTokDownloader.get_video_url`: any exception inside the `try`
(request failure, `code != 0`, missing `play` key) is wrapped into a
raised `ValueError("Failed to get TikTok URL: ...")`; otherwise the
play URL is returned with the video id. -/
def tiktok_get_video_url (resp : TtResp) (vid : List Char) :
    Except (List Char) (List Char × List Char) :=
  match resp with
  | .raises => .error ("Failed to get TikTok URL: request error".toList)
  | .ok code play =>
    if code ≠ some 0 then .error ("Failed to get TikTok URL: API error".toList)
    else
      match play with
      | none => .error ("Failed to get TikTok URL: KeyError: play".toList)
      | some u => .ok (u, vid)

/-! ### Concrete endpoints used in closed evaluations -/

/-- A sample proxy endpoint. -/
def pA : ProxyEndpoint :=
  ⟨"http://1.1.1.1:80".toList, "http://1.1.1.1:80".toList⟩

/-- A second, distinct sample proxy endpoint. -/
def pB : ProxyEndpoint :=
  ⟨"http://2.2.2.2:80".toList, "http://2.2.2.2:80".toList⟩

end InstaTok

namespace InstaTok

/-! ## Theorems -/

/-- **C10.**  The primary and the alternate Instagram strategies extract
exactly the same content id: `InstagramDownloader.extract_video_id` and
`InstagramAlternativeDownloader.extract_video_id` agree on every URL,
so a shortcode resolved by one variant is valid for the other during
fallback. -/
theorem c10_extract_video_id_agree :
    ∀ url : List Char, ig_extract_video_id url = igAlt_extract_video_id url :=
  fun _ => rfl

/-- **C9, counterexample.**  The alternate Instagram strategy's
`get_video_url` signals success while returning an empty direct URL:
when the mirror-API request raises, the `except` clause swallows the
exception and the function returns `("", shortcode)` normally instead of
failing with a `ResolutionError`. -/
theorem c9_counterexample :
    alt_get_video_url AltResp.raises ("ABC".toList) = ([], "ABC".toList) := by
  rfl

/-- **C9, amended.**  `resolveDirectUrl` never raises in the alternate
Instagram variant: it always returns a pair carrying the extracted
content id, and on *every* failure path — a raised mirror request, an
unsuccessful body (`success`/`data` falsy), no video entry in `medias`,
or a video entry without a `url` field — it returns an empty direct URL
rather than failing with a `ResolutionError`; the TikTok variant either
fails with a raised error or returns a direct URL together with the
content id. -/
theorem c9_amended_resolve_direct_url :
    (∀ (resp : AltResp) (sc : List Char),
        ∃ u, alt_get_video_url resp sc = (u, sc)) ∧
    (∀ sc : List Char, alt_get_video_url .raises sc = ([], sc)) ∧
    (∀ (success hasData : Bool) (medias : List AltMedia) (sc : List Char),
        (success && hasData) = false →
        alt_get_video_url (.ok success hasData medias) sc = ([], sc)) ∧
    (∀ (success hasData : Bool) (medias : List AltMedia) (sc : List Char),
        medias.find? (fun m => m.mtype = "video".toList) = none →
        alt_get_video_url (.ok success hasData medias) sc = ([], sc)) ∧
    (∀ (success hasData : Bool) (medias : List AltMedia) (med : AltMedia)
        (sc : List Char),
        medias.find? (fun m => m.mtype = "video".toList) = some med →
        med.murl = none →
        alt_get_video_url (.ok success hasData medias) sc = ([], sc)) ∧
    (∀ (resp : TtResp) (vid : List Char),
        (∃ e, tiktok_get_video_url resp vid = .error e) ∨
        (∃ u, tiktok_get_video_url resp vid = .ok (u, vid))) := by
  refine ⟨?_, ?_, ?_, ?_, ?_, ?_⟩
  · intro resp sc
    cases resp with
    | raises => exact ⟨[], rfl⟩
    | ok success hasData medias =>
      simp only [alt_get_video_url]
      split
      · cases h : medias.find? (fun m => m.mtype = "video".toList) with
        | none => exact ⟨[], by simp [h]⟩
        | some m => exact ⟨m.murl.getD [], by simp [h]⟩
      · exact ⟨[], rfl⟩
  · intro sc; rfl
  · intro success hasData medias sc hsd
    simp [alt_get_video_url, hsd]
  · intro success hasData medias sc hfind
    simp only [alt_get_video_url]
    split
    · rw [hfind]
    · rfl
  · intro success hasData medias med sc hfind hurl
    simp only [alt_get_video_url]
    split
    · rw [hfind]
      show (med.murl.getD [], sc) = ([], sc)
      rw [hurl]
      rfl
    · rfl
  · intro resp vid
    cases resp with
    | raises => exact .inl ⟨_, rfl⟩
    | ok code play =>
      by_cases hc : code = some 0
      · cases play with
        | none =>
          exact .inl ⟨"Failed to get TikTok URL: KeyError: play".toList,
            by simp [tiktok_get_video_url, hc]⟩
        | some u => exact .inr ⟨u, by simp [tiktok_get_video_url, hc]⟩
      · exact .inl ⟨"Failed to get TikTok URL: API error".toList,
          by simp [tiktok_get_video_url, hc]⟩

/-- **C9, witness.**  The failure modes of the alternate variant's
`get_video_url` at concrete responses: an unsuccessful body, a body
with no video media, and a video media entry lacking a `url` field all
return an empty direct URL with the content id. -/
theorem c9_amended_resolve_direct_url_witness :
    alt_get_video_url (.ok false true [⟨"video".toList, some ("u".toList)⟩])
      ("X".toList) = ([], "X".toList) ∧
    alt_get_video_url (.ok true true [⟨"image".toList, some ("u".toList)⟩])
      ("X".toList) = ([], "X".toList) ∧
    alt_get_video_url (.ok true true [⟨"video".toList, none⟩])
      ("X".toList) = ([], "X".toList) :=
  ⟨c9_amended_resolve_direct_url.2.2.1 false true
      [⟨"video".toList, some ("u".toList)⟩] ("X".toList) (by decide),
    c9_amended_resolve_direct_url.2.2.2.1 true true
      [⟨"image".toList, some ("u".toList)⟩] ("X".toList) (by decide),
    c9_amended_resolve_direct_url.2.2.2.2.1 true true
      [⟨"video".toList, none⟩] ⟨"video".toList, none⟩ ("X".toList)
      (by decide) (by decide)⟩

/-- **C8.**  A state reachable by `refresh`; `next`; `evict` makes the
very next `next()` fail with an out-of-range access: refreshing an empty
pool with one source yielding two endpoints, rotating once (cursor
moves to 1), then evicting the second endpoint leaves a nonempty pool
`[pA]` with cursor 1, and `get_proxy` then raises `IndexError` instead
of returning an endpoint or empty. -/
theorem c8_next_index_error_after_evict :
    (fetch_proxies ⟨[], 0⟩ [some [pA, pB]]).proxies = [pA, pB] ∧
    (get_proxy (fetch_proxies ⟨[], 0⟩ [some [pA, pB]])).1 = .proxy pA ∧
    (remove_proxy (get_proxy (fetch_proxies ⟨[], 0⟩ [some [pA, pB]])).2 pB).proxies
      = [pA] ∧
    (get_proxy (remove_proxy
      (get_proxy (fetch_proxies ⟨[], 0⟩ [some [pA, pB]])).2 pB)).1
      = .indexError := by
  decide

/-- In a run where every attempt fails, each loop iteration contributes
exactly one primary-strategy invocation. -/
theorem invokeCount_igFetchGo {α : Type} (errs : Nat → IgErr)
    (alt : Except (List Char) α) :
    ∀ (R a : Nat), invokeCount (igFetchGo (allFail (α := α) errs) alt a R).2 = R := by
  intro R
  induction R with
  | zero => intro a; rfl
  | succ r ih =>
    intro a
    simp only [igFetchGo, allFail]
    cases errs a with
    | conn m =>
      by_cases hr : r > 0
      · simp [hr, invokeCount] at ih ⊢
        exact ih (a + 1)
      · simp [hr, invokeCount]; omega
    | other m =>
      by_cases hr : r > 0
      · simp [hr, invokeCount] at ih ⊢
        exact ih (a + 1)
      · cases alt <;> simp [hr, invokeCount] <;> omega

/-- **C3.**  With a strategy that fails on every attempt,
`get_video_stream` invokes the strategy exactly `max_retries` times
(`max_retries = 3` in the code) before falling back or failing; the
backoff sleeps between consecutive attempts follow the linear schedule
`(attempt+1)*5` s after a connection-blocked failure and
`(attempt+1)*3` s after a generic failure, and they are non-decreasing
across attempts. -/
theorem c3_retry_count_and_backoff :
    ∀ (α : Type) (errs : Nat → IgErr) (alt : Except (List Char) α),
      (∀ R : Nat, invokeCount (ig_get_video_stream R (allFail errs) alt).2 = R) ∧
      sleepList (ig_get_video_stream 3 (allFail errs) alt).2 =
        [backoff 0 (errs 0), backoff 1 (errs 1)] ∧
      List.Chain' (fun a b => a ≤ b)
        (sleepList (ig_get_video_stream 3 (allFail errs) alt).2) := by
  intro α errs alt
  refine ⟨fun R => invokeCount_igFetchGo errs alt R 0, ?_, ?_⟩ <;>
    rcases h0 : errs 0 with m0 | m0 <;> rcases h1 : errs 1 with m1 | m1 <;>
    rcases h2 : errs 2 with m2 | m2 <;> rcases alt with p | am <;>
    simp [ig_get_video_stream, igFetchGo, allFail, h0, h1, h2, sleepList,
      backoff, List.chain'_cons]

/-- **C1, counterexample.**  When every retry attempt fails with a
`ConnectionException`, `get_video_stream` raises the blocking error
directly and never constructs the alternate strategy — even though the
alternate would have succeeded (`alt = .ok 0`).  The event trace of the
run contains no alternative invocation. -/
theorem c1_counterexample :
    ig_get_video_stream 3 (allFail (fun _ => .conn ("reset".toList)))
        (Except.ok (0 : Nat)) =
      (FetchResult.errBlocking,
        [.invoke 0, .sleep 5, .refreshPool, .invoke 1, .sleep 10,
         .refreshPool, .invoke 2]) ∧
    altCount (ig_get_video_stream 3 (allFail (fun _ => .conn ("reset".toList)))
        (Except.ok (0 : Nat))).2 = 0 := by
  decide

/-- **C1, amended.**  The alternate-strategy fallback fires only when
the *final* attempt's failure is a generic (non-connection) error: in
that case the alternate is fetched exactly once, its success is the
overall success and its failure yields the combined error naming both
the original and the alternate error messages.  When the final attempt
fails with a `ConnectionException`, no alternate attempt is made and
the blocking error is raised instead. -/
theorem c1_amended_fallback :
    ∀ (α : Type) (e0 e1 : IgErr) (m : List Char) (alt : Except (List Char) α),
      ((ig_get_video_stream 3 (allFail (errsOf3 e0 e1 (.other m))) alt).1 =
          (match alt with
           | .ok p => .ok p
           | .error am => .errCombined m am) ∧
        altCount (ig_get_video_stream 3
          (allFail (errsOf3 e0 e1 (.other m))) alt).2 = 1) ∧
      ((ig_get_video_stream 3 (allFail (errsOf3 e0 e1 (.conn m))) alt).1 =
          .errBlocking ∧
        altCount (ig_get_video_stream 3
          (allFail (errsOf3 e0 e1 (.conn m))) alt).2 = 0) := by
  intro α e0 e1 m alt
  rcases e0 with m0 | m0 <;> rcases e1 with m1 | m1 <;> rcases alt with p | am <;>
    simp [ig_get_video_stream, igFetchGo, allFail, errsOf3, altCount,
      List.count_cons]

/-- **C2, counterexample.**  A non-transient platform-side error — the
not-a-video `ValueError` — is *not* surfaced immediately: raised on
every attempt, it is caught by the generic `except Exception` handler
and retried with backoff sleeps of 3 s and 6 s, the strategy is invoked
three times, and the error finally reaches the caller only wrapped in
the combined fallback error. -/
theorem c2_counterexample :
    invokeCount (ig_get_video_stream 3
        (allFail (fun _ => .other ("This post is not a video".toList)))
        (Except.error ("alt failed".toList) : Except (List Char) Nat)).2 = 3 ∧
    sleepList (ig_get_video_stream 3
        (allFail (fun _ => .other ("This post is not a video".toList)))
        (Except.error ("alt failed".toList) : Except (List Char) Nat)).2
      = [3, 6] ∧
    (ig_get_video_stream 3
        (allFail (fun _ => .other ("This post is not a video".toList)))
        (Except.error ("alt failed".toList) : Except (List Char) Nat)).1
      = .errCombined ("This post is not a video".toList)
          ("alt failed".toList) := by
  decide

/-- **C2, amended.**  A platform-side error (not-a-video, malformed API
response) raised by every attempt is classified generically and
*retried*: the strategy is invoked all three times with the
`(attempt+1)*3` s backoff schedule, and the run ends in the alternate
fallback (whose success is returned, and whose failure yields the
combined error) rather than surfacing the platform-side error
immediately. -/
theorem c2_amended_platform_error_retried :
    ∀ (α : Type) (m : List Char) (alt : Except (List Char) α),
      invokeCount (ig_get_video_stream 3
          (allFail (fun _ => IgErr.other m)) alt).2 = 3 ∧
      sleepList (ig_get_video_stream 3
          (allFail (fun _ => IgErr.other m)) alt).2 = [3, 6] ∧
      (ig_get_video_stream 3 (allFail (fun _ => IgErr.other m)) alt).1 =
        (match alt with
         | .ok p => .ok p
         | .error am => .errCombined m am) := by
  intro α m alt
  rcases alt with p | am <;>
    simp [ig_get_video_stream, igFetchGo, allFail, invokeCount, sleepList]

/-- The factory loop body equals the spec-worded first-accepting
selection, platform by platform. -/
theorem selectGo_eq_selectSpec (useAlt : Bool) (url : List Char) :
    ∀ supported : List String,
      selectGo useAlt url supported = selectSpec useAlt url supported := by
  intro supported
  induction supported with
  | nil => rfl
  | cons p ps ih =>
    rcases eq_or_ne p "instagram" with rfl | hig
    · simp only [selectGo, selectSpec, downloaderFor, dlValidate]
      cases hv : ig_validate_url url <;> cases useAlt <;> simp [hv, ih]
    · rcases eq_or_ne p "tiktok" with rfl | htt
      · simp only [selectGo, selectSpec, downloaderFor, dlValidate]
        cases hv : tt_validate_url url <;> simp [hv, ih]
      · simp [selectGo, selectSpec, downloaderFor, hig, htt, ih]

/-- **C5.**  `get_downloader` iterates the configured platform list in
its fixed order and returns the first strategy whose `validate_url`
accepts the URL, substituting the alternative Instagram implementation
when the `USE_ALT_INSTAGRAM` toggle is on; when no configured strategy
accepts the URL it fails with an unsupported-platform error listing the
configured platforms — in particular `https://example.com/foo` fails
this way under the default configuration. -/
theorem c5_selector_first_accepting :
    (∀ (supported : List String) (useAlt : Bool) (url : List Char),
        selectGo useAlt url supported = selectSpec useAlt url supported) ∧
    (∀ (supported : List String) (useAlt : Bool) (url : List Char),
        selectSpec useAlt url supported = none →
          get_downloader supported useAlt url = .error supported) ∧
    get_downloader defaultPlatforms false ("https://example.com/foo".toList) =
      .error defaultPlatforms := by
  refine ⟨fun s a u => selectGo_eq_selectSpec a u s, ?_, ?_⟩
  · intro supported useAlt url h
    unfold get_downloader
    rw [selectGo_eq_selectSpec, h]
  · rfl

/-- **C5, witness.**  The unsupported-platform branch at the concrete
input `https://example.com/foo` with the default platform list. -/
theorem c5_selector_first_accepting_witness :
    get_downloader ["instagram", "tiktok"] false
        ("https://example.com/foo".toList) =
      .error ["instagram", "tiktok"] :=
  c5_selector_first_accepting.2.1 ["instagram", "tiktok"] false
    ("https://example.com/foo".toList) (by decide)

/-- Every entry surviving the dedup pass has a key outside `seen`. -/
theorem mem_dedupByHttp_not_seen :
    ∀ (seen : List (List Char)) (l : List ProxyEndpoint)
      (q : ProxyEndpoint), q ∈ dedupByHttp seen l → q.http ∉ seen := by
  intro seen l
  induction l generalizing seen with
  | nil => intro q h; simp [dedupByHttp] at h
  | cons p ps ih =>
    intro q h
    simp only [dedupByHttp] at h
    split at h
    · exact ih seen q h
    · rcases List.mem_cons.mp h with rfl | h2
      · assumption
      · have := ih (p.http :: seen) q h2
        exact fun hc => this (List.mem_cons_of_mem _ hc)

/-- The dedup pass leaves no two entries with the same `"http"` key. -/
theorem dedupByHttp_pairwise :
    ∀ (seen : List (List Char)) (l : List ProxyEndpoint),
      (dedupByHttp seen l).Pairwise (fun a b => a.http ≠ b.http) := by
  intro seen l
  induction l generalizing seen with
  | nil => simp [dedupByHttp]
  | cons p ps ih =>
    simp only [dedupByHttp]
    split
    · exact ih seen
    · refine List.pairwise_cons.mpr ⟨?_, ih (p.http :: seen)⟩
      intro b hb heq
      exact mem_dedupByHttp_not_seen _ _ _ hb
        (by rw [← heq]; exact List.mem_cons_self _ _)

/-- Every key present in the input is represented in the dedup output
(unless it was already in `seen`). -/
theorem dedupByHttp_covers :
    ∀ (seen : List (List Char)) (l : List ProxyEndpoint)
      (p : ProxyEndpoint), p ∈ l →
      p.http ∈ seen ∨ ∃ q ∈ dedupByHttp seen l, q.http = p.http := by
  intro seen l
  induction l generalizing seen with
  | nil => intro p h; simp at h
  | cons a as ih =>
    intro p hp
    simp only [dedupByHttp]
    rcases List.mem_cons.mp hp with rfl | hmem
    · by_cases hs : p.http ∈ seen
      · exact .inl hs
      · exact .inr ⟨p, by simp [hs]⟩
    · by_cases hs : a.http ∈ seen
      · rcases ih seen p hmem with h | ⟨q, hq, hqe⟩
        · exact .inl h
        · exact .inr ⟨q, by simp [hs, hq], hqe⟩
      · rcases ih (a.http :: seen) p hmem with h | ⟨q, hq, hqe⟩
        · rcases List.mem_cons.mp h with he | h2
          · exact .inr ⟨a, by simp [hs], he.symm⟩
          · exact .inl h2
        · exact .inr ⟨q, by simp [hs, List.mem_cons, hq], hqe⟩

/-- **C6.**  After every completed `fetch_proxies` refresh the pool
contains no two structurally equal endpoints, whatever duplicates the
sources returned and whatever the pool held before; and a failed source
(`none`) never prevents a successful source from contributing — every
candidate from every successful source is represented in the refreshed
pool by an entry with its `"http"` key. -/
theorem c6_refresh_dedup :
    ∀ (old : List ProxyEndpoint)
      (results : List (Option (List ProxyEndpoint))),
      (fetch_proxies_pool old results).Pairwise (fun a b => a ≠ b) ∧
      ∀ l : List ProxyEndpoint, some l ∈ results → ∀ p ∈ l,
        ∃ q ∈ fetch_proxies_pool old results, q.http = p.http := by
  intro old results
  constructor
  · exact (dedupByHttp_pairwise [] _).imp fun h he =>
      h (congrArg ProxyEndpoint.http he)
  · intro l hl p hp
    have hmerged : p ∈ old ++ (results.filterMap id).flatten := by
      refine List.mem_append_right _ ?_
      exact List.mem_flatten.mpr ⟨l, List.mem_filterMap.mpr ⟨some l, hl, rfl⟩, hp⟩
    rcases dedupByHttp_covers [] _ p hmerged with h | h
    · simp at h
    · exact h

/-- **C6, witness.**  Refreshing an empty pool where one source raised
and the others returned a duplicated endpoint: the result is
duplicate-free and the successful sources' endpoints are represented. -/
theorem c6_refresh_dedup_witness :
    (fetch_proxies_pool [] [some [pA, pA], none, some [pB]]).Pairwise
        (fun a b => a ≠ b) ∧
    ∃ q ∈ fetch_proxies_pool [] [some [pA, pA], none, some [pB]],
      q.http = pB.http :=
  ⟨(c6_refresh_dedup [] [some [pA, pA], none, some [pB]]).1,
    (c6_refresh_dedup [] [some [pA, pA], none, some [pB]]).2 [pB]
      (by simp) pB (by simp)⟩

/-- The head of a `dropWhile` residue falsifies the predicate. -/
theorem dropWhile_head_false {α : Type} (p : α → Bool) :
    ∀ (l : List α) (c : α) (rest : List α),
      l.dropWhile p = c :: rest → p c = false := by
  intro l
  induction l with
  | nil => intro c rest h; simp at h
  | cons a as ih =>
    intro c rest h
    rw [List.dropWhile_cons] at h
    by_cases hp : p a = true
    · rw [if_pos hp] at h; exact ih c rest h
    · rw [if_neg hp] at h
      cases h
      simpa using hp

/-- A nonempty `rstrip("/")` result never ends in a slash. -/
theorem rstripSlash_getLast_ne_slash (w : List Char)
    (hne : rstripSlash w ≠ []) : (rstripSlash w).getLast? ≠ some '/' := by
  intro hlast
  unfold rstripSlash at hne hlast
  rcases hd : (w.reverse.dropWhile (fun c => c = '/')) with _ | ⟨c, rest⟩
  · rw [hd] at hne; simp at hne
  · rw [hd] at hlast
    have hc := dropWhile_head_false (fun c => c = '/') w.reverse c rest hd
    have : (c :: rest).reverse.getLast? = some c := by
      simp
    rw [this] at hlast
    simp only [Option.some.injEq] at hlast
    rw [hlast] at hc
    simp at hc

/-- `list.splitOn` unfolded to its `splitOnP` form. -/
theorem splitOn_eq_splitOnP (u : List Char) :
    u.splitOn '/' = u.splitOnP (fun c => c == '/') := rfl

/-- The last field of `u.split("/")` is nonempty whenever `u` is
nonempty and does not end in a slash. -/
theorem splitOn_getLastD_ne_nil :
    ∀ u : List Char, u ≠ [] → u.getLast? ≠ some '/' →
      ((u.splitOn '/').getLastD []) ≠ [] := by
  intro u
  induction u with
  | nil => intro h; exact absurd rfl h
  | cons a rest ih =>
    intro _ hlast
    cases rest with
    | nil =>
      have ha : ¬ (a == '/') = true := by
        simp only [List.getLast?_singleton, ne_eq, Option.some.injEq] at hlast
        simpa using hlast
      simp [splitOn_eq_splitOnP, List.splitOnP_cons, ha, List.splitOnP_nil]
    | cons b r =>
      have hlast2 : (b :: r).getLast? ≠ some '/' := by
        simpa using hlast
      have ihr := ih (by simp) hlast2
      rw [splitOn_eq_splitOnP] at ihr ⊢
      rw [List.splitOnP_cons]
      by_cases hab : (a == '/') = true
      · rw [if_pos hab, List.getLastD_cons]
        simpa using ihr
      · rw [if_neg hab]
        rcases hl : (b :: r).splitOnP (fun c => c == '/') with _ | ⟨h1, t⟩
        · exact absurd hl (List.splitOnP_ne_nil _ _)
        · rw [hl] at ihr
          cases t with
          | nil => simp
          | cons x ts =>
            simp only [List.modifyHead, List.getLastD_cons] at ihr ⊢
            simp only [List.getLastD_eq_getLast?] at ihr ⊢
            exact ihr

/-- A captured group of `matchSegAt` is never empty. -/
theorem matchSegAt_ne_nil {cls : Char → Bool} {seg cs g : List Char}
    (h : matchSegAt cls seg cs = some g) : g ≠ [] := by
  simp only [matchSegAt] at h
  split at h
  · split at h
    · exact absurd h (by simp)
    · cases h; assumption
  · exact absurd h (by simp)

/-- A captured Instagram shortcode is never empty. -/
theorem igScan_ne_nil :
    ∀ {u g : List Char}, igScan u = some g → g ≠ [] := by
  intro u
  induction u with
  | nil => intro g h; simp [igScan] at h
  | cons c cs ih =>
    intro g h
    simp only [igScan] at h
    cases h1 : matchSegAt isIdChar ("/reel/".toList) (c :: cs) with
    | some g1 => rw [h1] at h; cases h; exact matchSegAt_ne_nil h1
    | none =>
      rw [h1] at h
      cases h2 : matchSegAt isIdChar ("/p/".toList) (c :: cs) with
      | some g2 => rw [h2] at h; cases h; exact matchSegAt_ne_nil h2
      | none =>
        rw [h2] at h
        cases h3 : matchSegAt isIdChar ("/tv/".toList) (c :: cs) with
        | some g3 => rw [h3] at h; cases h; exact matchSegAt_ne_nil h3
        | none => rw [h3] at h; exact ih h

/-- A captured TikTok digit group is never empty. -/
theorem ttScan_ne_nil :
    ∀ {u g : List Char}, ttScan u = some g → g ≠ [] := by
  intro u
  induction u with
  | nil => intro g h; simp [ttScan] at h
  | cons c cs ih =>
    intro g h
    simp only [ttScan] at h
    cases h1 : matchSegAt Char.isDigit ("/video/".toList) (c :: cs) with
    | some g1 => rw [h1] at h; cases h; exact matchSegAt_ne_nil h1
    | none => rw [h1] at h; exact ih h

/-- `extract_video_id` depends on the URL only through its
query-stripped, slash-stripped form. -/
theorem ig_extract_congr {u1 u2 : List Char}
    (h : rstripSlash (stripQuery u1) = rstripSlash (stripQuery u2)) :
    ig_extract_video_id u1 = ig_extract_video_id u2 := by
  simp only [ig_extract_video_id]
  rw [h]

/-- Python `split("?")[0]` is the identity on strings without `?`. -/
theorem stripQuery_eq_self {xs : List Char} (h : '?' ∉ xs) :
    stripQuery xs = xs := by
  unfold stripQuery
  rw [List.takeWhile_eq_self_iff]
  intro x hx
  simp only [ne_eq, decide_eq_true_eq]
  exact fun hc => h (hc ▸ hx)

/-- Python `split("?")[0]` drops an appended query string. -/
theorem stripQuery_append_query {xs q : List Char} (h : '?' ∉ xs) :
    stripQuery (xs ++ '?' :: q) = xs := by
  unfold stripQuery
  rw [List.takeWhile_append_of_pos]
  · simp
  · intro a ha
    simp only [ne_eq, decide_eq_true_eq]
    exact fun hc => h (hc ▸ ha)

/-- Python `rstrip("/")` absorbs appended trailing slashes. -/
theorem rstripSlash_append_replicate (xs : List Char) (k : Nat) :
    rstripSlash (xs ++ List.replicate k '/') = rstripSlash xs := by
  unfold rstripSlash
  rw [List.reverse_append, List.reverse_replicate,
    List.dropWhile_append_of_pos]
  intro a ha
  rw [List.eq_of_mem_replicate ha]
  decide

/-- A successful `matchSegAt` needs strictly more characters than the
fixed segment. -/
theorem matchSegAt_some_length {cls : Char → Bool} {seg cs g : List Char}
    (h : matchSegAt cls seg cs = some g) : seg.length < cs.length := by
  simp only [matchSegAt] at h
  split at h
  · rename_i hp
    split at h
    · exact absurd h (by simp)
    · rename_i hrun
      have hdrop : cs.drop seg.length ≠ [] := by
        intro hd
        exact hrun (by rw [hd]; rfl)
      have hlen := (List.isPrefixOf_iff_prefix.mp hp).length_le
      rw [ne_eq, List.drop_eq_nil_iff] at hdrop
      omega
  · exact absurd h (by simp)

/-- Appending a suffix whose head fails the class does not change a
successful `matchSegAt`. -/
theorem matchSegAt_append_some {cls : Char → Bool} {seg cs suf g : List Char}
    (h : matchSegAt cls seg cs = some g)
    (hsuf : suf.takeWhile cls = []) :
    matchSegAt cls seg (cs ++ suf) = some g := by
  simp only [matchSegAt] at h ⊢
  rcases hp : seg.isPrefixOf cs with _ | _
  · rw [hp] at h; simp at h
  · rw [hp] at h
    have hpre : seg <+: cs := List.isPrefixOf_iff_prefix.mp hp
    have hp2 : seg.isPrefixOf (cs ++ suf) = true :=
      List.isPrefixOf_iff_prefix.mpr (hpre.trans (List.prefix_append cs suf))
    rw [hp2]
    simp only [if_true]
    rw [List.drop_append_of_le_length hpre.length_le, List.takeWhile_append]
    split
    · rename_i hfull
      have heq : (cs.drop seg.length).takeWhile cls = cs.drop seg.length :=
        (List.takeWhile_prefix cls).eq_of_length hfull
      rw [hsuf, List.append_nil, ← heq]
      exact h
    · exact h

/-- Appending any suffix does not create a `matchSegAt` match at a
position where matching already failed on at least `|seg| + 1`
available characters. -/
theorem matchSegAt_append_none {cls : Char → Bool} {seg cs : List Char}
    (suf : List Char) (h : matchSegAt cls seg cs = none)
    (hlen : seg.length < cs.length) :
    matchSegAt cls seg (cs ++ suf) = none := by
  simp only [matchSegAt] at h ⊢
  rcases hp : seg.isPrefixOf cs with _ | _
  · have hp2 : seg.isPrefixOf (cs ++ suf) = false := by
      rcases hq : seg.isPrefixOf (cs ++ suf) with _ | _
      · rfl
      · have : seg <+: cs :=
          List.prefix_of_prefix_length_le (List.isPrefixOf_iff_prefix.mp hq)
            (List.prefix_append cs suf) (Nat.le_of_lt hlen)
        rw [List.isPrefixOf_iff_prefix.mpr this] at hp
        cases hp
    rw [hp2]
    simp
  · rw [hp] at h
    have hpre : seg <+: cs := List.isPrefixOf_iff_prefix.mp hp
    have hp2 : seg.isPrefixOf (cs ++ suf) = true :=
      List.isPrefixOf_iff_prefix.mpr (hpre.trans (List.prefix_append cs suf))
    rw [hp2]
    simp only [if_true] at h ⊢
    have hrun : (cs.drop seg.length).takeWhile cls = [] := by
      by_contra hne
      rw [if_neg hne] at h
      exact absurd h (by simp)
    have hcond : ¬ ((List.takeWhile cls (List.drop seg.length cs)).length =
        (List.drop seg.length cs).length) := by
      rw [hrun]
      simp only [List.length_nil, List.length_drop]
      omega
    rw [List.drop_append_of_le_length hpre.length_le, List.takeWhile_append,
      if_neg hcond, hrun]
    simp

/-- A TikTok regex match consumes strictly more than `/video/`. -/
theorem ttScan_length :
    ∀ {cs g : List Char}, ttScan cs = some g →
      ("/video/".toList).length < cs.length := by
  intro cs
  induction cs with
  | nil => intro g h; simp [ttScan] at h
  | cons c rest ih =>
    intro g h
    simp only [ttScan] at h
    cases hm : matchSegAt Char.isDigit ("/video/".toList) (c :: rest) with
    | some g0 => exact matchSegAt_some_length hm
    | none =>
      rw [hm] at h
      have := ih h
      simp only [List.length_cons] at this ⊢
      omega

/-- Appending a suffix that starts with a non-digit (or is empty) does
not change a successful TikTok regex search. -/
theorem ttScan_append :
    ∀ {cs suf g : List Char}, ttScan cs = some g →
      suf.takeWhile Char.isDigit = [] → ttScan (cs ++ suf) = some g := by
  intro cs
  induction cs with
  | nil => intro suf g h _; simp [ttScan] at h
  | cons c rest ih =>
    intro suf g h hsuf
    rw [List.cons_append]
    simp only [ttScan] at h ⊢
    cases hm : matchSegAt Char.isDigit ("/video/".toList) (c :: rest) with
    | some g0 =>
      rw [hm] at h
      have h2 := matchSegAt_append_some hm hsuf
      rw [List.cons_append] at h2
      rw [h2]
      exact h
    | none =>
      rw [hm] at h
      have hlen : ("/video/".toList).length < (c :: rest).length := by
        have := ttScan_length h
        simp only [List.length_cons] at this ⊢
        omega
      have h2 := matchSegAt_append_none suf hm hlen
      rw [List.cons_append] at h2
      rw [h2]
      exact ih h hsuf

/-- On a URL whose query-stripped, slash-stripped form is nonempty,
`extract_video_id` returns a nonempty shortcode. -/
theorem ig_extract_nonempty {url : List Char}
    (hne : rstripSlash (stripQuery url) ≠ []) :
    ∃ s, ig_extract_video_id url = some s ∧ s ≠ [] := by
  simp only [ig_extract_video_id]
  cases hscan : igScan (rstripSlash (stripQuery url)) with
  | some g => exact ⟨g, rfl, igScan_ne_nil hscan⟩
  | none =>
    have hlast := splitOn_getLastD_ne_nil _ hne
      (rstripSlash_getLast_ne_slash _ hne)
    refine ⟨((rstripSlash (stripQuery url)).splitOn '/').getLastD [],
      ?_, hlast⟩
    rw [if_neg hlast]

/-- **C4, counterexample.**  `?instagram.com` is accepted by
`validate_url` (substring test) but `extract_video_id` raises an
`IndexError` (modelled as `none`) instead of returning a non-empty
content id: the query strip leaves the empty string, the final path
segment is empty, and the `url_parts[-2]` fallback is out of range. -/
theorem c4_counterexample :
    ig_validate_url ("?instagram.com".toList) = true ∧
    ig_extract_video_id ("?instagram.com".toList) = none := by
  decide

/-- **C4, amended.**  For every URL whose query-stripped,
slash-stripped form is nonempty, the *Instagram* extractor returns a
non-empty content id (falling back to path segments); the *TikTok*
extractor returns the non-empty digit group whenever the path matches
`/video/(\d+)`, but it strips no trailing slash and has no
second-to-last-segment fallback, so on a supported trailing-slash URL
such as `https://www.tiktok.com/@user/` it returns the empty string
even though the stripped form is nonempty.  The Instagram extractor is
stable under adding trailing slashes and a query string to any
query-free URL; the TikTok extractor is stable under the same
variations on any URL whose path matches `/video/(\d+)`; and the two
concrete scenario mappings hold. -/
theorem c4_amended_extraction :
    (∀ url : List Char, rstripSlash (stripQuery url) ≠ [] →
        ∃ s, ig_extract_video_id url = some s ∧ s ≠ []) ∧
    (∀ base g : List Char, ttScan base = some g →
        tt_extract_video_id base = g ∧ g ≠ []) ∧
    (tt_validate_url ("https://www.tiktok.com/@user/".toList) = true ∧
      rstripSlash (stripQuery ("https://www.tiktok.com/@user/".toList)) ≠ [] ∧
      tt_extract_video_id ("https://www.tiktok.com/@user/".toList) = []) ∧
    (∀ (base : List Char) (k : Nat) (q : List Char), '?' ∉ base →
        ig_extract_video_id (base ++ List.replicate k '/') =
          ig_extract_video_id base ∧
        ig_extract_video_id (base ++ List.replicate k '/' ++ '?' :: q) =
          ig_extract_video_id base) ∧
    (∀ (base g : List Char) (k : Nat) (q : List Char), ttScan base = some g →
        tt_extract_video_id base = g ∧
        tt_extract_video_id (base ++ List.replicate k '/') = g ∧
        tt_extract_video_id (base ++ List.replicate k '/' ++ '?' :: q) = g) ∧
    ig_extract_video_id ("https://www.instagram.com/reel/ABC123/?utm=1".toList)
      = some ("ABC123".toList) ∧
    tt_extract_video_id ("https://www.tiktok.com/@user/video/998877".toList)
      = "998877".toList := by
  refine ⟨fun url hne => ig_extract_nonempty hne, ?_, by decide, ?_, ?_,
    by decide, by decide⟩
  · intro base g hscan
    refine ⟨?_, ttScan_ne_nil hscan⟩
    simp only [tt_extract_video_id, hscan]
  · intro base k q hq
    have hrep : '?' ∉ base ++ List.replicate k '/' := by
      intro hmem
      rcases List.mem_append.mp hmem with h | h
      · exact hq h
      · have := List.eq_of_mem_replicate h
        cases this
    constructor
    · apply ig_extract_congr
      rw [stripQuery_eq_self hrep, stripQuery_eq_self hq,
        rstripSlash_append_replicate]
    · apply ig_extract_congr
      rw [stripQuery_append_query hrep, stripQuery_eq_self hq,
        rstripSlash_append_replicate]
  · intro base g k q hscan
    have hsuf1 : (List.replicate k '/').takeWhile Char.isDigit = [] := by
      cases k <;> rfl
    have hsuf2 :
        (List.replicate k '/' ++ '?' :: q).takeWhile Char.isDigit = [] := by
      cases k <;> rfl
    refine ⟨?_, ?_, ?_⟩
    · simp only [tt_extract_video_id, hscan]
    · simp only [tt_extract_video_id, ttScan_append hscan hsuf1]
    · rw [List.append_assoc]
      simp only [tt_extract_video_id, ttScan_append hscan hsuf2]

/-- **C4, witness.**  The amended statement instantiated: the reel URL
without query yields a nonempty shortcode, the scenario TikTok URL
yields its nonempty digit group, adding `/?utm=1` to the reel URL does
not change the extraction, and a trailing slash does not change the
TikTok extraction of the scenario URL. -/
theorem c4_amended_extraction_witness :
    (∃ s, ig_extract_video_id
        ("https://www.instagram.com/reel/ABC123".toList) = some s ∧ s ≠ []) ∧
    (tt_extract_video_id ("https://www.tiktok.com/@user/video/998877".toList)
        = "998877".toList ∧ ("998877".toList : List Char) ≠ []) ∧
    ig_extract_video_id ("https://www.instagram.com/reel/ABC123".toList
        ++ List.replicate 1 '/' ++ '?' :: "utm=1".toList) =
      ig_extract_video_id ("https://www.instagram.com/reel/ABC123".toList) ∧
    tt_extract_video_id ("https://www.tiktok.com/@user/video/998877".toList
        ++ List.replicate 1 '/') = "998877".toList :=
  ⟨c4_amended_extraction.1 ("https://www.instagram.com/reel/ABC123".toList)
      (by decide),
    c4_amended_extraction.2.1
      ("https://www.tiktok.com/@user/video/998877".toList)
      ("998877".toList) (by decide),
    (c4_amended_extraction.2.2.2.1
      ("https://www.instagram.com/reel/ABC123".toList)
      1 ("utm=1".toList) (by decide)).2,
    (c4_amended_extraction.2.2.2.2.1
      ("https://www.tiktok.com/@user/video/998877".toList)
      ("998877".toList) 1 [] (by decide)).2.1⟩

/-- Every cursor position visited by the rotation is in range. -/
theorem idxTrace_lt {K : Nat} (hK : 0 < K) :
    ∀ (n i : Nat), i < K → ∀ t ∈ idxTrace K i n, t < K := by
  intro n
  induction n with
  | zero => intro i _ t ht; simp [idxTrace] at ht
  | succ m ih =>
    intro i hi t ht
    simp only [idxTrace] at ht
    rcases List.mem_cons.mp ht with rfl | h2
    · exact hi
    · exact ih ((i + 1) % K) (Nat.mod_lt _ hK) t h2

/-- Closed form of the rotation: the cursor positions visited by `n`
calls starting at `i` are `(i + t) % K` for `t < n`. -/
theorem idxTrace_closed {K : Nat} (hK : 0 < K) :
    ∀ (n i : Nat), i < K →
      idxTrace K i n = (List.range n).map (fun t => (i + t) % K) := by
  intro n
  induction n with
  | zero => intro i _; rfl
  | succ m ih =>
    intro i hi
    rw [List.range_succ_eq_map]
    simp only [idxTrace, List.map_cons, List.map_map]
    refine congrArg₂ _ ?_ ?_
    · rw [Nat.add_zero, Nat.mod_eq_of_lt hi]
    · rw [ih ((i + 1) % K) (Nat.mod_lt _ hK)]
      refine List.map_congr_left ?_
      intro t _
      show ((i + 1) % K + t) % K = (i + (t + 1)) % K
      rw [Nat.mod_add_mod]
      congr 1
      omega

/-- One full cycle of the rotation visits every slot exactly once. -/
theorem count_idxTrace_cycle {K : Nat} (hK : 0 < K) {i j : Nat}
    (hi : i < K) (hj : j < K) : (idxTrace K i K).count j = 1 := by
  rw [idxTrace_closed hK K i hi]
  have hinj : ∀ x ∈ List.range K, ∀ y ∈ List.range K,
      (i + x) % K = (i + y) % K → x = y := by
    intro x hx y hy hxy
    rw [List.mem_range] at hx hy
    have hmod : x % K = y % K := Nat.ModEq.add_left_cancel' i hxy
    rwa [Nat.mod_eq_of_lt hx, Nat.mod_eq_of_lt hy] at hmod
  have hnodup := (List.nodup_range K).map_on hinj
  have hmem : j ∈ (List.range K).map (fun t => (i + t) % K) := by
    refine List.mem_map.mpr
      ⟨(j + K - i) % K, List.mem_range.mpr (Nat.mod_lt _ hK), ?_⟩
    rw [Nat.add_comm i, Nat.mod_add_mod]
    have he : j + K - i + i = j + K := by omega
    rw [he, Nat.add_mod_right, Nat.mod_eq_of_lt hj]
  exact List.count_eq_one_of_mem hnodup hmem

/-- A partial cycle of the rotation visits no slot twice. -/
theorem count_idxTrace_le_one {K : Nat} (hK : 0 < K) (i j n : Nat)
    (hi : i < K) (hn : n ≤ K) : (idxTrace K i n).count j ≤ 1 := by
  rw [idxTrace_closed hK n i hi]
  have hinj : ∀ x ∈ List.range n, ∀ y ∈ List.range n,
      (i + x) % K = (i + y) % K → x = y := by
    intro x hx y hy hxy
    rw [List.mem_range] at hx hy
    have hmod : x % K = y % K := Nat.ModEq.add_left_cancel' i hxy
    rwa [Nat.mod_eq_of_lt (by omega), Nat.mod_eq_of_lt (by omega)] at hmod
  exact List.nodup_iff_count_le_one.mp ((List.nodup_range n).map_on hinj) j

/-- The rotation trace splits into consecutive stretches, the second
starting at the advanced cursor. -/
theorem idxTrace_add {K : Nat} (hK : 0 < K) :
    ∀ (a b i : Nat), i < K →
      idxTrace K i (a + b) = idxTrace K i a ++ idxTrace K ((i + a) % K) b := by
  intro a
  induction a with
  | zero =>
    intro b i hi
    simp [idxTrace, Nat.mod_eq_of_lt hi]
  | succ m ih =>
    intro b i hi
    have he : m + 1 + b = (m + b) + 1 := by omega
    rw [he]
    simp only [idxTrace, List.cons_append]
    refine congrArg₂ _ rfl ?_
    rw [ih b ((i + 1) % K) (Nat.mod_lt _ hK)]
    refine congrArg₂ _ rfl ?_
    refine congrArg₂ _ ?_ rfl
    rw [Nat.mod_add_mod]
    congr 1
    omega

/-- Counting over whole cycles plus a remainder. -/
theorem count_idxTrace_blocks {K : Nat} (hK : 0 < K) {i j : Nat}
    (hi : i < K) (hj : j < K) :
    ∀ (q r : Nat),
      (idxTrace K i (K * q + r)).count j = q + (idxTrace K i r).count j := by
  intro q
  induction q with
  | zero => intro r; simp
  | succ m ih =>
    intro r
    have he : K * (m + 1) + r = K + (K * m + r) := by
      rw [Nat.mul_succ]; omega
    rw [he, idxTrace_add hK K (K * m + r) i hi, List.count_append]
    have h3 : (i + K) % K = i := by
      rw [Nat.add_mod_right, Nat.mod_eq_of_lt hi]
    rw [h3, count_idxTrace_cycle hK hi hj, ih r]
    omega

/-- The fairness arithmetic: `q` full cycles plus at most one extra
visit lands on `⌊N/K⌋` or `⌈N/K⌉`. -/
theorem fair_count_arith (K q r c : Nat) (hK : 0 < K) (hr : r < K)
    (hc : c ≤ 1) (hc0 : r = 0 → c = 0) :
    q + c = (K * q + r) / K ∨ q + c = (K * q + r + K - 1) / K := by
  have hcases : c = 0 ∨ c = 1 := by omega
  rcases hcases with rfl | rfl
  · left
    rw [Nat.mul_add_div hK, Nat.div_eq_of_lt hr]
  · right
    have hr1 : 1 ≤ r := by
      rcases Nat.eq_zero_or_pos r with h0 | h1
      · exact absurd (hc0 h0) (by omega)
      · exact h1
    have he : K * q + r + K - 1 = K * q + (r - 1 + K) := by omega
    rw [he, Nat.mul_add_div hK, Nat.add_div_right _ hK,
      Nat.div_eq_of_lt (by omega)]

/-- The outputs of `n` rotation calls are the slot reads along the
cursor trace. -/
theorem run_get_proxy_eq_map :
    ∀ (n : Nat) (pool : List ProxyEndpoint) (i : Nat), i < pool.length →
      (run_get_proxy ⟨pool, i⟩ n).1 =
        (idxTrace pool.length i n).map (slotResult pool) := by
  intro n
  induction n with
  | zero => intro pool i _; rfl
  | succ m ih =>
    intro pool i hi
    have hK : 0 < pool.length := Nat.lt_of_le_of_lt (Nat.zero_le _) hi
    have hget : pool[i]? = some pool[i] := List.getElem?_eq_getElem hi
    simp only [run_get_proxy, get_proxy, hget, idxTrace, List.map_cons]
    refine congrArg₂ _ ?_ ?_
    · simp [slotResult, hget]
    · exact ih pool ((i + 1) % pool.length) (Nat.mod_lt _ hK)

/-- **C7.**  Circular round-robin fairness of `get_proxy`: on a
duplicate-free pool of size `K > 0` whose contents are not mutated in
between, `N` successive calls starting from any in-bounds cursor return
each pool endpoint exactly `⌊N/K⌋` or `⌈N/K⌉` times. -/
theorem c7_rotation_fairness :
    ∀ (pool : List ProxyEndpoint) (i N j : Nat) (_hnd : pool.Nodup)
      (hi : i < pool.length) (hj : j < pool.length),
      ((run_get_proxy ⟨pool, i⟩ N).1.count (NextResult.proxy pool[j])
          = N / pool.length) ∨
      ((run_get_proxy ⟨pool, i⟩ N).1.count (NextResult.proxy pool[j])
          = (N + pool.length - 1) / pool.length) := by
  intro pool i N j hnd hi hj
  have hK : 0 < pool.length := Nat.lt_of_le_of_lt (Nat.zero_le _) hi
  rw [run_get_proxy_eq_map N pool i hi]
  have hcount :
      ((idxTrace pool.length i N).map (slotResult pool)).count
        (NextResult.proxy pool[j]) = (idxTrace pool.length i N).count j := by
    rw [List.count_eq_countP, List.count_eq_countP, List.countP_map]
    refine List.countP_congr ?_
    intro t ht
    have htK := idxTrace_lt hK N i hi t ht
    simp only [Function.comp_apply, slotResult,
      List.getElem?_eq_getElem htK, beq_iff_eq, NextResult.proxy.injEq]
    constructor
    · intro hpe
      have hpe2 : pool.get ⟨t, htK⟩ = pool.get ⟨j, hj⟩ := hpe
      exact congrArg Fin.val (hnd.get_inj_iff.mp hpe2)
    · rintro rfl
      rfl
  rw [hcount]
  have hNdecomp : pool.length * (N / pool.length) + N % pool.length = N :=
    Nat.div_add_mod N pool.length
  have htotal : (idxTrace pool.length i N).count j
      = N / pool.length
        + (idxTrace pool.length i (N % pool.length)).count j := by
    conv_lhs => rw [← hNdecomp]
    exact count_idxTrace_blocks hK hi hj (N / pool.length) (N % pool.length)
  rw [htotal]
  have harith := fair_count_arith pool.length (N / pool.length)
    (N % pool.length) ((idxTrace pool.length i (N % pool.length)).count j)
    hK (Nat.mod_lt N hK)
    (count_idxTrace_le_one hK i j (N % pool.length) hi
      (Nat.le_of_lt (Nat.mod_lt N hK)))
    (fun h0 => by rw [h0]; rfl)
  rw [hNdecomp] at harith
  exact harith

/-- **C7, witness.**  Five rotation calls on the two-endpoint pool
starting at cursor 0 return the first endpoint `⌈5/2⌉ = 3` times. -/
theorem c7_rotation_fairness_witness :
    ((run_get_proxy ⟨[pA, pB], 0⟩ 5).1.count (NextResult.proxy ([pA, pB])[0])
        = 5 / 2) ∨
    ((run_get_proxy ⟨[pA, pB], 0⟩ 5).1.count (NextResult.proxy ([pA, pB])[0])
        = (5 + 2 - 1) / 2) :=
  c7_rotation_fairness [pA, pB] 0 5 0 (by decide) (by decide) (by decide)

end InstaTok
